import Mathlib

/-!
Verification of the geometry-reconstruction and spatial-enrichment pipeline
of the Ukraine energy dashboard (`src/data/process.py`).

The Python functions `elements_to_geodataframe`, `filter_power_stations`,
`assign_oblasts` and `match_with_gppd` are shallowly embedded as executable
Lean functions.  Machine floats carrying longitude/latitude only ever get
compared for equality in the source, so coordinates are modelled as `Int`
pairs.  The geometric predicates supplied by the shapely/GEOS library
(`is_valid`, `is_empty`, polygon-constructor success, spatial `within` /
`intersects`, metric buffering) are external to the repository and are
modelled as abstract boolean-valued parameters; the two documented
constructor behaviours that the control flow of the source depends on are
kept concrete:
  * `LineString(coords)` raises for a single coordinate (shapely requires
    at least two points, or zero for an empty line);
  * `Polygon(coords)` does not raise on a numeric closed ring of at least
    four points (the way branch calls it unguarded).
Exceptions are modelled by `Except Unit`: `.error ()` is an uncaught Python
exception aborting the batch.
-/

set_option autoImplicit false

deriving instance DecidableEq for Except

namespace UkrEnergy

/-- One member entry of an OSM relation: `{"type": ..., "ref": ..., "role": ...}`.
`type` and `ref` are accessed unconditionally by the source; `role` is read
with `.get` and is therefore optional. -/
structure OsmMember where
  mtype : String
  ref : Int
  role : Option String
deriving DecidableEq

/-- One raw Overpass element.  `lon`/`lat` are optional (the source tests
`"lon" in el and "lat" in el`); `nodes`, `members` and `tags` are read with
`.get` and default to empty. -/
structure Element where
  etype : String
  id : Int
  lon : Option Int
  lat : Option Int
  nodes : List Int
  members : List OsmMember
  tags : List (String × String)
deriving DecidableEq

/-- A constructed shapely geometry, carrying the coordinates it was built from. -/
inductive Geom where
  | point : Int → Int → Geom
  | line : List (Int × Int) → Geom
  | polygon : List (Int × Int) → Geom
  | multipolygon : List (List (Int × Int)) → Geom
deriving DecidableEq

/-- Abstract model of the shapely predicates used by the source: validity and
emptiness of lines, polygons and multipolygons, and whether the `Polygon`
constructor raises on a given coordinate list (relevant in the relation
branch, where the source wraps it in `try/except`).  Points built from
numeric coordinates are always valid and non-empty. -/
structure ShapelyModel where
  polyValid : List (Int × Int) → Bool
  polyEmpty : List (Int × Int) → Bool
  lineValid : List (Int × Int) → Bool
  lineEmpty : List (Int × Int) → Bool
  polyCtorOk : List (Int × Int) → Bool
  multiValid : List (List (Int × Int)) → Bool
  multiEmpty : List (List (Int × Int)) → Bool

/-- `geom.is_valid` (line 104 of the source, and branch-local checks). -/
def geomValid (sh : ShapelyModel) : Geom → Bool
  | .point _ _ => true
  | .line cs => sh.lineValid cs
  | .polygon cs => sh.polyValid cs
  | .multipolygon ps => sh.multiValid ps

/-- `not geom.is_empty` (line 104 of the source). -/
def geomNonEmpty (sh : ShapelyModel) : Geom → Bool
  | .point _ _ => true
  | .line cs => !sh.lineEmpty cs
  | .polygon cs => !sh.polyEmpty cs
  | .multipolygon ps => !sh.multiEmpty ps

/-- `node_by_id`: dict comprehension over the elements of type `"node"`;
a later element with the same id overwrites an earlier one. -/
def nodeById (els : List Element) (n : Int) : Option Element :=
  (els.filter fun e => e.etype = "node" ∧ e.id = n).getLast?

/-- `way_by_id`: dict comprehension over the elements of type `"way"`. -/
def wayById (els : List Element) (w : Int) : Option Element :=
  (els.filter fun e => e.etype = "way" ∧ e.id = w).getLast?

/-- The coordinate list comprehension of the way and relation branches:
`[(node_by_id[n]["lon"], node_by_id[n]["lat"]) for n in ns if n in node_by_id]`.
A node id absent from the lookup is skipped by the `if` filter; a node that
is present but lacks `"lon"` or `"lat"` raises a `KeyError` (uncaught).
`coordStep` is the per-node step on a present node: emit its coordinate
pair, or raise when `lon`/`lat` is missing. -/
def coordStep (e : Element) (rest : Except Unit (List (Int × Int))) :
    Except Unit (List (Int × Int)) :=
  match e.lon, e.lat with
  | some lo, some la =>
    match rest with
    | .ok r => .ok ((lo, la) :: r)
    | .error u => .error u
  | _, _ => .error ()

def resolveNodeCoords (lookup : Int → Option Element) : List Int → Except Unit (List (Int × Int))
  | [] => .ok []
  | n :: ns =>
    match lookup n with
    | none => resolveNodeCoords lookup ns
    | some e => coordStep e (resolveNodeCoords lookup ns)

/-- The relation branch's accumulation of candidate outer rings (source lines
82–99): members of type `"way"` with role `"outer"` or `""` are resolved
through the way lookup (missing ways skipped), their node lists resolved to
coordinates, and coordinate lists of length ≥ 3 are kept when the polygon
constructor succeeds (`try/except`, modelled by `polyCtorOk`) and the polygon
is valid; failing rings are skipped without aborting the relation.
`ringAccept` is the per-ring accept/skip decision (source lines 92–99). -/
def ringAccept (sh : ShapelyModel) (coords : List (Int × Int))
    (rest : List (List (Int × Int))) : List (List (Int × Int)) :=
  if 3 ≤ coords.length then
    if sh.polyCtorOk coords then
      if sh.polyValid coords then coords :: rest else rest
    else rest
  else rest

def relRings (sh : ShapelyModel) (nodeL wayL : Int → Option Element) :
    List OsmMember → Except Unit (List (List (Int × Int)))
  | [] => .ok []
  | m :: ms =>
    if m.mtype = "way" ∧ (m.role = some "outer" ∨ m.role = some "") then
      match wayL m.ref with
      | none => relRings sh nodeL wayL ms
      | some way =>
        match resolveNodeCoords nodeL way.nodes with
        | .error u => .error u
        | .ok coords =>
          match relRings sh nodeL wayL ms with
          | .error u => .error u
          | .ok rest => .ok (ringAccept sh coords rest)
    else relRings sh nodeL wayL ms

/-- Source lines 100–101: `MultiPolygon(polys) if len(polys) > 1 else polys[0]`
when `polys` is non-empty, else no geometry. -/
def relGeomOf : List (List (Int × Int)) → Option Geom
  | [] => none
  | [p] => some (.polygon p)
  | ps => some (.multipolygon ps)

/-- The way branch of `elements_to_geodataframe` (source lines 70–79), on an
already-resolved coordinate list: the empty list yields no geometry
(`if coords:` is false); a closed list of at least four points attempts a
`Polygon`, kept only when valid and non-empty; any other list attempts a
`LineString`, which raises on a single coordinate and is otherwise kept only
when valid and non-empty. -/
def wayGeomOf (sh : ShapelyModel) (coords : List (Int × Int)) : Except Unit (Option Geom) :=
  if coords = [] then .ok none
  else if coords.head? = coords.getLast? ∧ 4 ≤ coords.length then
    .ok (if sh.polyValid coords && !sh.polyEmpty coords then some (.polygon coords) else none)
  else if coords.length = 1 then .error ()
  else
    .ok (if sh.lineValid coords && !sh.lineEmpty coords then some (.line coords) else none)

/-- The per-element geometry construction of `elements_to_geodataframe`
(the value of the variable `geom` reaching line 104), `.error ()` when the
element raises. -/
def buildGeom (sh : ShapelyModel) (nodeL wayL : Int → Option Element) (el : Element) :
    Except Unit (Option Geom) :=
  if el.etype = "node" then
    match el.lon, el.lat with
    | some lo, some la => .ok (some (.point lo la))
    | _, _ => .ok none
  else if el.etype = "way" then
    match resolveNodeCoords nodeL el.nodes with
    | .error u => .error u
    | .ok coords => wayGeomOf sh coords
  else if el.etype = "relation" then
    match relRings sh nodeL wayL el.members with
    | .error u => .error u
    | .ok polys => .ok (relGeomOf polys)
  else .ok none

/-- One output record: `{"osm_id": ..., "osm_type": ..., **tags, "geometry": ...}`. -/
structure Feature where
  osm_id : Int
  osm_type : String
  tags : List (String × String)
  geometry : Geom
deriving DecidableEq

/-- Build the feature record for an element (source line 105). -/
def mkFeature (el : Element) (g : Geom) : Feature :=
  ⟨el.id, el.etype, el.tags, g⟩

/-- The main loop of `elements_to_geodataframe` (lines 62–105): a feature is
appended exactly when a geometry was produced and it is valid and non-empty;
an uncaught exception aborts the whole loop. -/
def featuresLoop (sh : ShapelyModel) (nodeL wayL : Int → Option Element) :
    List Element → Except Unit (List Feature)
  | [] => .ok []
  | el :: rest =>
    match buildGeom sh nodeL wayL el with
    | .error u => .error u
    | .ok og =>
      match featuresLoop sh nodeL wayL rest with
      | .error u => .error u
      | .ok fs =>
        match og with
        | some g =>
          if geomValid sh g && geomNonEmpty sh g then .ok (mkFeature el g :: fs) else .ok fs
        | none => .ok fs

/-- A GeoDataFrame: the list of tag-valued columns (identifier and geometry
columns are kept structural) together with the rows.  A row's missing tag is
a null (`NaN`) cell. -/
structure GeoDF where
  tagCols : List String
  rows : List Feature
deriving DecidableEq

/-- Append a key to a column list unless already present (pandas builds the
column set in first-seen order). -/
def insertUnique (xs : List String) (x : String) : List String :=
  if x ∈ xs then xs else xs ++ [x]

/-- The union of the rows' tag keys in first-seen order: the tag columns of
the GeoDataFrame built from a list of feature dicts. -/
def toGeoDF (fs : List Feature) : GeoDF :=
  ⟨(fs.flatMap fun f => f.tags.map Prod.fst).foldl insertUnique [], fs⟩

/-- `elements_to_geodataframe` (source lines 45–107). -/
def elements_to_geodataframe (sh : ShapelyModel) (els : List Element) : Except Unit GeoDF :=
  match featuresLoop sh (nodeById els) (wayById els) els with
  | .ok fs => .ok (toGeoDF fs)
  | .error u => .error u

/-- Python-dict lookup over an association list (first matching key). -/
def tagLookup : List (String × String) → String → Option String
  | [], _ => none
  | kv :: rest, k => if kv.1 = k then some kv.2 else tagLookup rest k

/-- The row mask of `filter_power_stations` (source line 122), given whether
the `"substation"` column exists: `plant:source` non-null, or the substation
cell equals `"transmission"` (when the column is missing, pandas evaluates
`None == "transmission"` to the scalar `False`). -/
def keepRow (hasSub : Bool) (r : Feature) : Bool :=
  (tagLookup r.tags "plant:source").isSome ||
    (hasSub && decide (tagLookup r.tags "substation" = some "transmission"))

/-- `(osm_id, osm_type)` of a row, the deduplication key. -/
def keyOf (r : Feature) : Int × String :=
  (r.osm_id, r.osm_type)

/-- `drop_duplicates(subset=["osm_id", "osm_type"])`: keeps the first row of
each key. -/
def dedupGo (seen : List (Int × String)) : List Feature → List Feature
  | [] => []
  | r :: rs => if keyOf r ∈ seen then dedupGo seen rs else r :: dedupGo (keyOf r :: seen) rs

/-- The fixed column allow-list of `filter_power_stations` (source lines 125–141). -/
def colsToKeep : List String :=
  ["osm_id", "osm_type", "power", "substation", "name", "name:en", "operator",
   "operator:en", "barrier", "voltage", "landuse", "plant:method",
   "plant:output:electricity", "plant:source", "geometry"]

/-- `rename(columns={"name:en": "station_name_en"})` on one column name. -/
def renameCol (c : String) : String :=
  if c = "name:en" then "station_name_en" else c

/-- Project a row's tag cells to the kept columns and apply the rename. -/
def projectRow (keep : List String) (r : Feature) : Feature :=
  { r with tags := (r.tags.filter fun kv => kv.1 ∈ keep).map fun kv => (renameCol kv.1, kv.2) }

/-- `filter_power_stations` (source lines 110–145).  `gdf.get("plant:source")`
returns `None` when the column is absent, and `None.notna()` raises an
`AttributeError`, modelled by `.error ()`.  Otherwise: mask, first-occurrence
deduplication by `(osm_id, osm_type)`, projection to the allow-listed columns
present in the input, and the `name:en` rename. -/
def filter_power_stations (gdf : GeoDF) : Except Unit GeoDF :=
  if "plant:source" ∈ gdf.tagCols then
    let hasSub : Bool := "substation" ∈ gdf.tagCols
    let kept := gdf.rows.filter (keepRow hasSub)
    let deduped := dedupGo [] kept
    let keepTags := colsToKeep.filter fun c => c ∈ gdf.tagCols
    .ok ⟨keepTags.map renameCol, deduped.map (projectRow keepTags)⟩
  else .error ()

/-- The rows one left row contributes to a left spatial join: the matching
right rows in right order, or one row with a null right value when nothing
matches. -/
def sjoinRows {σ ρ : Type} (pred : σ → ρ → Bool) (right : List (String × ρ))
    (s : Nat × σ) : List (Nat × σ × Option String) :=
  match right.filter (fun r => pred s.2 r.2) with
  | [] => [(s.1, s.2, none)]
  | ms => ms.map fun r => (s.1, s.2, some r.1)

/-- `gpd.sjoin(left, right, how="left", predicate=...)`: for each left row
(a pandas index paired with a geometry) the matching right rows in right
order, or a single row with a null right value when nothing matches.
Geometries of the two sides are abstract types `σ` and `ρ`; the joined right
attribute retained by the source is the region name. -/
def sjoinLeft {σ ρ : Type} (pred : σ → ρ → Bool) (left : List (Nat × σ))
    (right : List (String × ρ)) : List (Nat × σ × Option String) :=
  left.flatMap (sjoinRows pred right)

/-- The distinct elements of a list of indices in first-seen order (the group
keys of a pandas `groupby`). -/
def firstSeenGo (seen : List Nat) : List Nat → List Nat
  | [] => []
  | n :: ns => if n ∈ seen then firstSeenGo seen ns else n :: firstSeenGo (n :: seen) ns

/-- First non-null value of a column slice (`GroupBy.first` semantics). -/
def firstSome : List (Option String) → Option String
  | [] => none
  | some v :: _ => some v
  | none :: rest => firstSome rest

/-- `matched_intersects.groupby(matched_intersects.index).first()` (source
line 200): per distinct index, the first non-null region name among its rows. -/
def groupFirst {σ : Type} (rows : List (Nat × σ × Option String)) : List (Nat × Option String) :=
  (firstSeenGo [] (rows.map fun r => r.1)).map fun i =>
    (i, firstSome ((rows.filter fun r => decide (r.1 = i)).map fun r => r.2.2))

/-- Association-list lookup by pandas index. -/
def lookupNat {β : Type} : List (Nat × β) → Nat → Option β
  | [], _ => none
  | p :: ps, i => if p.1 = i then some p.2 else lookupNat ps i

/-- The second pass of `assign_oblasts` (source lines 192–200): re-join the
unmatched rows with the relaxed predicate and collapse to the first match
per index. -/
def assignPass2 {σ ρ : Type} (itsct : σ → ρ → Bool) (regions : List (String × ρ))
    (unmatched : List (Nat × σ × Option String)) : List (Nat × Option String) :=
  groupFirst (sjoinLeft itsct (unmatched.map fun r => (r.1, r.2.1)) regions)

/-- The two-pass region assignment of `assign_oblasts` (source lines 182–205),
abstracted over the `within` and `intersects` spatial predicates: a strict
left `within`-join; when rows are left unmatched they are re-joined with
`intersects`, collapsed to the first match per index, and written back by
index.  Boundary download, reprojection and the name-normalization table
precede this and do not affect the assignment logic.
`assignApply` is the index-aligned write-back of the collapsed second-pass
result onto one first-pass row (source line 203). -/
def assignApply {σ : Type} (firsts : List (Nat × Option String))
    (r : Nat × σ × Option String) : Nat × σ × Option String :=
  match lookupNat firsts r.1 with
  | some v => (r.1, r.2.1, v)
  | none => r

def assignOblasts {σ ρ : Type} (wthn itsct : σ → ρ → Bool)
    (stations : List (Nat × σ)) (regions : List (String × ρ)) :
    List (Nat × σ × Option String) :=
  match (sjoinLeft wthn stations regions).filter (fun r => r.2.2.isNone) with
  | [] => sjoinLeft wthn stations regions
  | u :: us =>
    (sjoinLeft wthn stations regions).map
      (assignApply (assignPass2 itsct regions (u :: us)))

/-- The join rows one buffered facility contributes against the filtered
reference points: one `false` row when nothing intersects, else one `true`
row per intersecting reference point. -/
def gppdRows {σ ρ : Type} (buffer : σ → Nat → σ) (itsct : σ → ρ → Bool)
    (radius : Nat) (refsUA : List ρ) (f : Nat × σ) : List (Nat × Bool) :=
  match refsUA.filter (fun p => itsct (buffer f.2 radius) p) with
  | [] => [(f.1, false)]
  | ms => ms.map fun _ => (f.1, true)

/-- `joined.groupby("index")["index_right"].apply(lambda x: x.notna().any())`
(source line 243): per distinct index, whether any join row matched. -/
def gppdFlags (rows : List (Nat × Bool)) : List (Nat × Bool) :=
  (firstSeenGo [] (rows.map fun r => r.1)).map fun i =>
    (i, (rows.filter fun r => decide (r.1 = i)).any fun r => r.2)

/-- `match_with_gppd` (source lines 208–255) with the buffer radius made a
parameter: reference records are filtered to `country_long == "Ukraine"`,
every facility geometry is buffered, a left `intersects`-join is taken
against the reference points, the join rows are grouped by original index
into an any-match flag, and the flag column is mapped back onto the input
facilities (a facility whose index never occurs among the group keys would
map to null). -/
def match_with_gppd_r {σ ρ : Type} (buffer : σ → Nat → σ) (itsct : σ → ρ → Bool)
    (radius : Nat) (facilities : List (Nat × σ)) (refs : List (String × ρ)) :
    List (Nat × σ × Option Bool) :=
  facilities.map fun f =>
    (f.1, f.2,
     lookupNat
       (gppdFlags (facilities.flatMap
         (gppdRows buffer itsct radius ((refs.filter fun r => r.1 = "Ukraine").map Prod.snd))))
       f.1)

/-- `match_with_gppd` with the source's fixed 500 m radius. -/
def match_with_gppd {σ ρ : Type} (buffer : σ → Nat → σ) (itsct : σ → ρ → Bool)
    (facilities : List (Nat × σ)) (refs : List (String × ρ)) :
    List (Nat × σ × Option Bool) :=
  match_with_gppd_r buffer itsct 500 facilities refs

section GeometryBuilder

/-- Unfolding lemma for the way branch of `buildGeom`. -/
theorem buildGeom_way (sh : ShapelyModel) (nodeL wayL : Int → Option Element) (el : Element)
    (hty : el.etype = "way") :
    buildGeom sh nodeL wayL el =
      match resolveNodeCoords nodeL el.nodes with
      | .error u => .error u
      | .ok coords => wayGeomOf sh coords := by
  unfold buildGeom
  rw [hty, if_neg (by decide : ¬ ("way" = "node")), if_pos rfl]

/-- Unfolding lemma for the relation branch of `buildGeom`. -/
theorem buildGeom_rel (sh : ShapelyModel) (nodeL wayL : Int → Option Element) (el : Element)
    (hty : el.etype = "relation") :
    buildGeom sh nodeL wayL el =
      match relRings sh nodeL wayL el.members with
      | .error u => .error u
      | .ok polys => .ok (relGeomOf polys) := by
  unfold buildGeom
  rw [hty, if_neg (by decide : ¬ ("relation" = "node")),
    if_neg (by decide : ¬ ("relation" = "way")), if_pos rfl]

/-- The loop body of `elements_to_geodataframe` on a single element. -/
theorem featuresLoop_single (sh : ShapelyModel) (nodeL wayL : Int → Option Element)
    (el : Element) :
    featuresLoop sh nodeL wayL [el] =
      match buildGeom sh nodeL wayL el with
      | .error u => .error u
      | .ok none => .ok []
      | .ok (some g) =>
        if geomValid sh g && geomNonEmpty sh g then .ok [mkFeature el g] else .ok [] := by
  cases h : buildGeom sh nodeL wayL el with
  | error u => simp [featuresLoop, h]
  | ok og =>
    cases og with
    | none => simp [featuresLoop, h]
    | some g => simp only [featuresLoop, h]

/-- **C1.** For every way element, once the node references are resolved, a
coordinate sequence whose first point equals its last and which has at least
4 points yields a `Polygon` (never a `Line`); an invalid or empty polygon is
discarded, so the element produces no geometry and is dropped from the
output without an error. -/
theorem way_closed_ring_builds_polygon (sh : ShapelyModel)
    (nodeL wayL : Int → Option Element) (el : Element) (coords : List (Int × Int))
    (hty : el.etype = "way")
    (hres : resolveNodeCoords nodeL el.nodes = .ok coords)
    (hclose : coords.head? = coords.getLast?)
    (hlen : 4 ≤ coords.length) :
    buildGeom sh nodeL wayL el =
      .ok (if sh.polyValid coords && !sh.polyEmpty coords then some (.polygon coords) else none) ∧
    featuresLoop sh nodeL wayL [el] =
      .ok (if sh.polyValid coords && !sh.polyEmpty coords
           then [mkFeature el (.polygon coords)] else []) := by
  have hne : coords ≠ [] := by
    intro h
    rw [h] at hlen
    exact absurd hlen (by decide)
  have hway : wayGeomOf sh coords =
      .ok (if sh.polyValid coords && !sh.polyEmpty coords then some (.polygon coords) else none) := by
    unfold wayGeomOf
    rw [if_neg hne, if_pos ⟨hclose, hlen⟩]
  have hbg : buildGeom sh nodeL wayL el =
      .ok (if sh.polyValid coords && !sh.polyEmpty coords then some (.polygon coords) else none) := by
    rw [buildGeom_way sh nodeL wayL el hty, hres]
    exact hway
  refine ⟨hbg, ?_⟩
  by_cases hv : (sh.polyValid coords && !sh.polyEmpty coords) = true
  · rw [hv] at hbg ⊢
    simp only [if_true] at hbg ⊢
    rw [featuresLoop_single, hbg]
    simp [geomValid, geomNonEmpty, hv]
  · rw [Bool.not_eq_true] at hv
    rw [hv] at hbg ⊢
    simp only [Bool.false_eq_true, if_false] at hbg ⊢
    rw [featuresLoop_single, hbg]

/-- **C2 (amended).** For every way element whose resolved coordinate
sequence does not close or has fewer than 4 points: with at least 2 resolved
coordinates the builder produces a `Line` (kept only when valid and
non-empty, silently dropped otherwise); with 0 resolved coordinates it
silently produces no geometry; with exactly 1 resolved coordinate the
`LineString` constructor raises, aborting the batch. -/
theorem way_nonclosed_line_cases (sh : ShapelyModel)
    (nodeL wayL : Int → Option Element) (el : Element) (coords : List (Int × Int))
    (hty : el.etype = "way")
    (hres : resolveNodeCoords nodeL el.nodes = .ok coords)
    (hnc : ¬ (coords.head? = coords.getLast? ∧ 4 ≤ coords.length)) :
    (2 ≤ coords.length →
       buildGeom sh nodeL wayL el =
         .ok (if sh.lineValid coords && !sh.lineEmpty coords then some (.line coords) else none) ∧
       featuresLoop sh nodeL wayL [el] =
         .ok (if sh.lineValid coords && !sh.lineEmpty coords
              then [mkFeature el (.line coords)] else [])) ∧
    (coords = [] →
       buildGeom sh nodeL wayL el = .ok none ∧ featuresLoop sh nodeL wayL [el] = .ok []) ∧
    (coords.length = 1 → buildGeom sh nodeL wayL el = .error ()) := by
  have hbg0 : buildGeom sh nodeL wayL el = wayGeomOf sh coords := by
    rw [buildGeom_way sh nodeL wayL el hty, hres]
  refine ⟨?_, ?_, ?_⟩
  · intro h2
    have hne : coords ≠ [] := by
      intro h
      rw [h] at h2
      exact absurd h2 (by decide)
    have hn1 : ¬ coords.length = 1 := by
      intro h
      rw [h] at h2
      exact absurd h2 (by decide)
    have hbg : buildGeom sh nodeL wayL el =
        .ok (if sh.lineValid coords && !sh.lineEmpty coords then some (.line coords) else none) := by
      rw [hbg0]
      unfold wayGeomOf
      rw [if_neg hne, if_neg hnc, if_neg hn1]
    refine ⟨hbg, ?_⟩
    by_cases hv : (sh.lineValid coords && !sh.lineEmpty coords) = true
    · rw [hv] at hbg ⊢
      simp only [if_true] at hbg ⊢
      rw [featuresLoop_single, hbg]
      simp [geomValid, geomNonEmpty, hv]
    · rw [Bool.not_eq_true] at hv
      rw [hv] at hbg ⊢
      simp only [Bool.false_eq_true, if_false] at hbg ⊢
      rw [featuresLoop_single, hbg]
  · intro h0
    have hw : wayGeomOf sh coords = .ok none := by
      unfold wayGeomOf
      rw [if_pos h0]
    have hbg : buildGeom sh nodeL wayL el = .ok none := by rw [hbg0, hw]
    exact ⟨hbg, by rw [featuresLoop_single, hbg]⟩
  · intro h1
    have hne : coords ≠ [] := by
      intro h
      rw [h] at h1
      exact absurd h1 (by decide)
    rw [hbg0]
    unfold wayGeomOf
    rw [if_neg hne, if_neg hnc, if_pos h1]

/-- **C3.** For every relation element whose candidate outer rings resolve
without a lookup error: with zero valid rings no geometry is produced, with
exactly one the builder produces a `Polygon`, with more than one a
`MultiPolygon` of all of them; and a way member of role `"outer"`/`""` is a
candidate ring only with at least 3 resolved points (closure not required),
while a ring whose polygon constructor raises or is invalid is skipped
without aborting the relation. -/
theorem relation_outer_rings_dispatch (sh : ShapelyModel)
    (nodeL wayL : Int → Option Element) (el : Element) (rings : List (List (Int × Int)))
    (hty : el.etype = "relation")
    (hr : relRings sh nodeL wayL el.members = .ok rings) :
    (rings = [] → buildGeom sh nodeL wayL el = .ok none) ∧
    (∀ r, rings = [r] → buildGeom sh nodeL wayL el = .ok (some (.polygon r))) ∧
    (1 < rings.length → buildGeom sh nodeL wayL el = .ok (some (.multipolygon rings))) ∧
    (∀ (m : OsmMember) (ms : List OsmMember) (way : Element) (coords : List (Int × Int)),
       m.mtype = "way" → (m.role = some "outer" ∨ m.role = some "") →
       wayL m.ref = some way → resolveNodeCoords nodeL way.nodes = .ok coords →
       ((coords.length < 3 ∨ sh.polyCtorOk coords = false ∨ sh.polyValid coords = false) →
          relRings sh nodeL wayL (m :: ms) = relRings sh nodeL wayL ms) ∧
       (3 ≤ coords.length → sh.polyCtorOk coords = true → sh.polyValid coords = true →
          ∀ rest, relRings sh nodeL wayL ms = .ok rest →
            relRings sh nodeL wayL (m :: ms) = .ok (coords :: rest))) := by
  have hbg0 : buildGeom sh nodeL wayL el = .ok (relGeomOf rings) := by
    rw [buildGeom_rel sh nodeL wayL el hty, hr]
  refine ⟨?_, ?_, ?_, ?_⟩
  · intro h
    rw [hbg0, h]
    rfl
  · intro r h
    rw [hbg0, h]
    rfl
  · intro h
    match rings, h with
    | a :: b :: t, _ => rw [hbg0]; rfl
  · intro m ms way coords hm hrole hwl hrc
    have hstep : relRings sh nodeL wayL (m :: ms) =
        match relRings sh nodeL wayL ms with
        | .error u => .error u
        | .ok rest => .ok (ringAccept sh coords rest) := by
      conv_lhs => unfold relRings
      rw [if_pos ⟨hm, hrole⟩, hwl]
      show (match resolveNodeCoords nodeL way.nodes with
            | Except.error u => (Except.error u : Except Unit (List (List (Int × Int))))
            | Except.ok coords =>
              match relRings sh nodeL wayL ms with
              | Except.error u => Except.error u
              | Except.ok rest => Except.ok (ringAccept sh coords rest)) = _
      rw [hrc]
    constructor
    · intro hbad
      rw [hstep]
      cases hrest : relRings sh nodeL wayL ms with
      | error u => rfl
      | ok rest =>
        show Except.ok (ringAccept sh coords rest) = Except.ok rest
        have hacc : ringAccept sh coords rest = rest := by
          unfold ringAccept
          rcases hbad with h3 | hc | hv
          · rw [if_neg (by omega : ¬ 3 ≤ coords.length)]
          · by_cases h3 : 3 ≤ coords.length
            · rw [if_pos h3, if_neg (by simp [hc])]
            · rw [if_neg h3]
          · by_cases h3 : 3 ≤ coords.length
            · by_cases hc2 : sh.polyCtorOk coords = true
              · rw [if_pos h3, if_pos hc2, if_neg (by simp [hv])]
              · rw [if_pos h3, if_neg hc2]
            · rw [if_neg h3]
        rw [hacc]
    · intro h3 hc hv rest hrest
      rw [hstep, hrest]
      show Except.ok (ringAccept sh coords rest) = _
      unfold ringAccept
      rw [if_pos h3, if_pos hc, if_pos hv]

/-- A node id mapped to an element without coordinates makes resolution raise. -/
theorem resolveNodeCoords_error (lookup : Int → Option Element) (nodes : List Int)
    (n : Int) (e : Element) (hn : n ∈ nodes) (he : lookup n = some e)
    (hc : e.lon = none ∨ e.lat = none) :
    resolveNodeCoords lookup nodes = .error () := by
  induction nodes with
  | nil => cases hn
  | cons m ms ih =>
    unfold resolveNodeCoords
    by_cases hm : n = m
    · subst hm
      rw [he]
      show coordStep e (resolveNodeCoords lookup ms) = .error ()
      unfold coordStep
      rcases hc with h | h
      · rw [h]
      · cases hlon : e.lon with
        | none => rfl
        | some lo => rw [h]
    · have hn2 : n ∈ ms := by
        rcases List.mem_cons.mp hn with h | h
        · exact absurd h hm
        · exact h
      cases hlm : lookup m with
      | none => exact ih hn2
      | some em =>
        show coordStep em (resolveNodeCoords lookup ms) = .error ()
        unfold coordStep
        cases hlo : em.lon with
        | none => rfl
        | some lo =>
          cases hla : em.lat with
          | none => rfl
          | some la => rw [ih hn2]

/-- An element whose geometry construction raises aborts the whole loop. -/
theorem featuresLoop_error (sh : ShapelyModel) (nodeL wayL : Int → Option Element)
    (els : List Element) (el : Element) (hmem : el ∈ els)
    (herr : buildGeom sh nodeL wayL el = .error ()) :
    featuresLoop sh nodeL wayL els = .error () := by
  induction els with
  | nil => cases hmem
  | cons x xs ih =>
    unfold featuresLoop
    rcases List.mem_cons.mp hmem with rfl | hx
    · rw [herr]
    · cases hbx : buildGeom sh nodeL wayL x with
      | error u => cases u; rfl
      | ok og => rw [ih hx]

/-- **C9.** A way node reference whose id is present in the node lookup but
whose element lacks `lon`/`lat` raises a lookup error that aborts the whole
batch; while node ids entirely absent from the lookup are skipped, so that
resolution succeeds and returns exactly the coordinates of the present,
coordinate-bearing ids. -/
theorem coordless_node_reference_aborts (sh : ShapelyModel) :
    (∀ (els : List Element) (el : Element) (n : Int) (e : Element),
       el ∈ els → el.etype = "way" → n ∈ el.nodes → nodeById els n = some e →
       e.lon = none ∨ e.lat = none →
       elements_to_geodataframe sh els = .error ()) ∧
    (∀ (lookup : Int → Option Element) (nodes : List Int),
       (∀ n ∈ nodes, ∀ e, lookup n = some e → e.lon.isSome ∧ e.lat.isSome) →
       resolveNodeCoords lookup nodes =
         .ok (nodes.filterMap fun n =>
           (lookup n).bind fun e => e.lon.bind fun lo => e.lat.map fun la => (lo, la))) := by
  constructor
  · intro els el n e hmem hty hn he hc
    have hres : resolveNodeCoords (nodeById els) el.nodes = .error () :=
      resolveNodeCoords_error _ _ n e hn he hc
    have hbg : buildGeom sh (nodeById els) (wayById els) el = .error () := by
      rw [buildGeom_way sh _ _ el hty, hres]
    unfold elements_to_geodataframe
    rw [featuresLoop_error sh _ _ els el hmem hbg]
  · intro lookup nodes
    induction nodes with
    | nil => intro _; rfl
    | cons m ms ih =>
      intro hok
      have hms : ∀ n ∈ ms, ∀ e, lookup n = some e → e.lon.isSome ∧ e.lat.isSome :=
        fun n hn => hok n (List.mem_cons_of_mem _ hn)
      unfold resolveNodeCoords
      cases hlm : lookup m with
      | none =>
        rw [ih hms]
        simp [List.filterMap_cons, hlm]
      | some e =>
        obtain ⟨hlo, hla⟩ := hok m (List.mem_cons_self m ms) e hlm
        obtain ⟨lo, hlo2⟩ := Option.isSome_iff_exists.mp hlo
        obtain ⟨la, hla2⟩ := Option.isSome_iff_exists.mp hla
        show coordStep e (resolveNodeCoords lookup ms) = _
        unfold coordStep
        rw [hlo2, hla2, ih hms]
        simp [List.filterMap_cons, hlm, hlo2, hla2]

end GeometryBuilder

section FacilityFilter

/-- Membership in `insertUnique`. -/
theorem mem_insertUnique (xs : List String) (x y : String) :
    y ∈ insertUnique xs x ↔ y ∈ xs ∨ y = x := by
  unfold insertUnique
  by_cases h : x ∈ xs
  · rw [if_pos h]
    constructor
    · exact Or.inl
    · rintro (hy | rfl)
      · exact hy
      · exact h
  · rw [if_neg h]
    simp

/-- Membership in a fold of `insertUnique`. -/
theorem mem_foldl_insertUnique (l init : List String) (y : String) :
    y ∈ l.foldl insertUnique init ↔ y ∈ init ∨ y ∈ l := by
  induction l generalizing init with
  | nil => simp
  | cons a t ih =>
    rw [List.foldl_cons, ih, mem_insertUnique]
    simp only [List.mem_cons]
    tauto

/-- A tag column exists in the built GeoDataFrame exactly when some feature
carries the tag. -/
theorem mem_toGeoDF_tagCols (fs : List Feature) (k : String) :
    k ∈ (toGeoDF fs).tagCols ↔ ∃ f ∈ fs, k ∈ f.tags.map Prod.fst := by
  unfold toGeoDF
  rw [mem_foldl_insertUnique]
  simp [List.mem_flatMap]

/-- **C10.** `filter_power_stations` raises exactly when the `plant:source`
column is absent — in particular on any element collection none of whose
elements carries that tag — whereas with `plant:source` present it returns
normally, even if the `substation` column is absent. -/
theorem missing_fuel_column_raises (gdf : GeoDF) (features : List Feature) :
    (filter_power_stations gdf = .error () ↔ "plant:source" ∉ gdf.tagCols) ∧
    ((∀ f ∈ features, "plant:source" ∉ f.tags.map Prod.fst) →
       filter_power_stations (toGeoDF features) = .error ()) ∧
    ("plant:source" ∈ gdf.tagCols → ∃ out, filter_power_stations gdf = .ok out) := by
  refine ⟨?_, ?_, ?_⟩
  · unfold filter_power_stations
    by_cases h : "plant:source" ∈ gdf.tagCols
    · rw [if_pos h]
      simp [h]
    · rw [if_neg h]
      simp [h]
  · intro hf
    have habs : "plant:source" ∉ (toGeoDF features).tagCols := by
      rw [mem_toGeoDF_tagCols]
      rintro ⟨f, hf2, hk⟩
      exact hf f hf2 hk
    unfold filter_power_stations
    rw [if_neg habs]
  · intro h
    unfold filter_power_stations
    rw [if_pos h]
    exact ⟨_, rfl⟩

/-- `dedupGo` only returns rows of its input. -/
theorem mem_of_mem_dedupGo (seen : List (Int × String)) (l : List Feature) (r : Feature)
    (h : r ∈ dedupGo seen l) : r ∈ l := by
  induction l generalizing seen with
  | nil => cases h
  | cons x xs ih =>
    unfold dedupGo at h
    by_cases hx : keyOf x ∈ seen
    · rw [if_pos hx] at h
      exact List.mem_cons_of_mem _ (ih _ h)
    · rw [if_neg hx] at h
      rcases List.mem_cons.mp h with rfl | h2
      · exact List.mem_cons_self _ _
      · exact List.mem_cons_of_mem _ (ih _ h2)

/-- `dedupGo` never returns a row whose key was already seen. -/
theorem dedupGo_key_not_seen (seen : List (Int × String)) (l : List Feature) (r : Feature)
    (h : r ∈ dedupGo seen l) : keyOf r ∉ seen := by
  induction l generalizing seen with
  | nil => cases h
  | cons x xs ih =>
    unfold dedupGo at h
    by_cases hx : keyOf x ∈ seen
    · rw [if_pos hx] at h
      exact ih _ h
    · rw [if_neg hx] at h
      rcases List.mem_cons.mp h with rfl | h2
      · exact hx
      · intro hc
        exact (ih _ h2) (List.mem_cons_of_mem _ hc)

/-- The keys surviving `dedupGo` are pairwise distinct. -/
theorem dedupGo_keys_nodup (seen : List (Int × String)) (l : List Feature) :
    ((dedupGo seen l).map keyOf).Nodup := by
  induction l generalizing seen with
  | nil => simp [dedupGo]
  | cons x xs ih =>
    unfold dedupGo
    by_cases hx : keyOf x ∈ seen
    · rw [if_pos hx]
      exact ih _
    · rw [if_neg hx]
      simp only [List.map_cons, List.nodup_cons]
      refine ⟨?_, ih _⟩
      intro hc
      obtain ⟨r, hr, hkr⟩ := List.mem_map.mp hc
      have hns := dedupGo_key_not_seen _ _ _ hr
      rw [hkr] at hns
      exact hns (List.mem_cons_self _ _)

/-- Every key of the input survives `dedupGo` on some row. -/
theorem dedupGo_exists_key (seen : List (Int × String)) (l : List Feature) (r : Feature)
    (hr : r ∈ l) (hs : keyOf r ∉ seen) :
    ∃ d ∈ dedupGo seen l, keyOf d = keyOf r := by
  induction l generalizing seen with
  | nil => cases hr
  | cons x xs ih =>
    unfold dedupGo
    by_cases hx : keyOf x ∈ seen
    · rw [if_pos hx]
      rcases List.mem_cons.mp hr with rfl | h2
      · exact absurd hx hs
      · exact ih _ h2 hs
    · rw [if_neg hx]
      by_cases hk : keyOf r = keyOf x
      · exact ⟨x, List.mem_cons_self _ _, hk.symm⟩
      · rcases List.mem_cons.mp hr with rfl | h2
        · exact absurd rfl hk
        · have hs2 : keyOf r ∉ keyOf x :: seen := by
            intro hc
            rcases List.mem_cons.mp hc with h3 | h3
            · exact hk h3
            · exact hs h3
          obtain ⟨d, hd, hkd⟩ := ih _ h2 hs2
          exact ⟨d, List.mem_cons_of_mem _ hd, hkd⟩

/-- A row surviving `dedupGo` is the first row of the input with its key. -/
theorem dedupGo_find_first (seen : List (Int × String)) (l : List Feature) (r : Feature)
    (h : r ∈ dedupGo seen l) :
    l.find? (fun x => decide (keyOf x = keyOf r)) = some r := by
  induction l generalizing seen with
  | nil => cases h
  | cons x xs ih =>
    unfold dedupGo at h
    by_cases hx : keyOf x ∈ seen
    · rw [if_pos hx] at h
      have hne : ¬ keyOf x = keyOf r := by
        intro hc
        exact (dedupGo_key_not_seen _ _ _ h) (by rw [← hc]; exact hx)
      rw [List.find?_cons_of_neg _ (by simpa using hne)]
      exact ih _ h
    · rw [if_neg hx] at h
      rcases List.mem_cons.mp h with rfl | h2
      · rw [List.find?_cons_of_pos _ (by simp)]
      · have hns := dedupGo_key_not_seen _ _ _ h2
        have hne : ¬ keyOf x = keyOf r := by
          intro hc
          exact hns (by rw [← hc]; exact List.mem_cons_self _ _)
        rw [List.find?_cons_of_neg _ (by simpa using hne)]
        exact ih _ h2

/-- Projection does not change the deduplication key. -/
theorem keyOf_projectRow (keep : List String) (r : Feature) :
    keyOf (projectRow keep r) = keyOf r := rfl

/-- A successful tag lookup means the key occurs among the row's tag keys. -/
theorem tagLookup_some_key_mem (l : List (String × String)) (k v : String)
    (h : tagLookup l k = some v) : k ∈ l.map Prod.fst := by
  induction l with
  | nil => cases h
  | cons kv rest ih =>
    unfold tagLookup at h
    by_cases hk : kv.1 = k
    · simp [← hk]
    · rw [if_neg hk] at h
      simp [ih h]

/-- **C4.** With a well-formed column set, `filter_power_stations` keeps a
row exactly when its `plant:source` tag is non-null or its `substation` tag
equals `"transmission"`, and collapses duplicate `(osm_id, osm_type)` keys
to a single record — the projection of the first kept occurrence. -/
theorem filter_keeps_exactly_and_dedups (gdf out : GeoDF)
    (hwf : ∀ r ∈ gdf.rows, ∀ kv ∈ r.tags, kv.1 ∈ gdf.tagCols)
    (h : filter_power_stations gdf = .ok out) :
    (∀ r ∈ out.rows, ∃ r0 ∈ gdf.rows, keyOf r0 = keyOf r ∧
       ((tagLookup r0.tags "plant:source").isSome ∨
        tagLookup r0.tags "substation" = some "transmission")) ∧
    (∀ r0 ∈ gdf.rows,
       (tagLookup r0.tags "plant:source").isSome ∨
         tagLookup r0.tags "substation" = some "transmission" →
       ∃ r ∈ out.rows, keyOf r = keyOf r0) ∧
    (out.rows.map keyOf).Nodup ∧
    (∀ r ∈ out.rows, ∃ r0,
       (gdf.rows.filter (keepRow (decide ("substation" ∈ gdf.tagCols)))).find?
           (fun x => decide (keyOf x = keyOf r)) = some r0 ∧
       r = projectRow (colsToKeep.filter fun c => c ∈ gdf.tagCols) r0) := by
  have hps : "plant:source" ∈ gdf.tagCols := by
    by_contra hn
    unfold filter_power_stations at h
    rw [if_neg hn] at h
    cases h
  unfold filter_power_stations at h
  rw [if_pos hps] at h
  obtain rfl := Except.ok.inj h
  have hkeep_iff : ∀ r0 ∈ gdf.rows,
      (keepRow (decide ("substation" ∈ gdf.tagCols)) r0 = true ↔
        ((tagLookup r0.tags "plant:source").isSome ∨
         tagLookup r0.tags "substation" = some "transmission")) := by
    intro r0 hr0
    unfold keepRow
    rw [Bool.or_eq_true, Bool.and_eq_true]
    constructor
    · rintro (h1 | ⟨h2, h3⟩)
      · exact Or.inl h1
      · exact Or.inr (of_decide_eq_true h3)
    · rintro (h1 | h2)
      · exact Or.inl h1
      · refine Or.inr ⟨?_, decide_eq_true h2⟩
        have hmem := tagLookup_some_key_mem _ _ _ h2
        obtain ⟨kv, hkv, hfst⟩ := List.mem_map.mp hmem
        have hcol := hwf r0 hr0 kv hkv
        rw [hfst] at hcol
        exact decide_eq_true hcol
  refine ⟨?_, ?_, ?_, ?_⟩
  · intro r hr
    obtain ⟨d, hd, rfl⟩ := List.mem_map.mp hr
    have hdk := mem_of_mem_dedupGo _ _ _ hd
    obtain ⟨hdg, hkeep⟩ := List.mem_filter.mp hdk
    exact ⟨d, hdg, (keyOf_projectRow _ _).symm, (hkeep_iff d hdg).mp hkeep⟩
  · intro r0 hr0 hcond
    have hk : r0 ∈ gdf.rows.filter (keepRow (decide ("substation" ∈ gdf.tagCols))) :=
      List.mem_filter.mpr ⟨hr0, (hkeep_iff r0 hr0).mpr hcond⟩
    obtain ⟨d, hd, hkd⟩ := dedupGo_exists_key [] _ r0 hk (by simp)
    exact ⟨projectRow _ d, List.mem_map_of_mem _ hd, by rw [keyOf_projectRow]; exact hkd⟩
  · rw [List.map_map]
    exact dedupGo_keys_nodup [] _
  · intro r hr
    obtain ⟨d, hd, rfl⟩ := List.mem_map.mp hr
    rw [keyOf_projectRow]
    exact ⟨d, dedupGo_find_first [] _ d hd, rfl⟩

/-- Filtering an association list to a kept-key set preserves lookups of
kept keys. -/
theorem tagLookup_filter_mem (l : List (String × String)) (keep : List String) (k : String)
    (hk : k ∈ keep) :
    tagLookup (l.filter fun kv => decide (kv.1 ∈ keep)) k = tagLookup l k := by
  induction l with
  | nil => rfl
  | cons kv rest ih =>
    by_cases hm : kv.1 ∈ keep
    · rw [List.filter_cons_of_pos (by simpa using hm)]
      unfold tagLookup
      by_cases hkk : kv.1 = k
      · rw [if_pos hkk, if_pos hkk]
      · rw [if_neg hkk, if_neg hkk]
        exact ih
    · rw [List.filter_cons_of_neg (by simpa using hm)]
      rw [ih]
      have hkk : ¬ kv.1 = k := by
        intro hc
        rw [hc] at hm
        exact hm hk
      simp only [tagLookup]
      rw [if_neg hkk]

/-- When the kept-key set does not contain `"name:en"`, projection is plain
key filtering — the rename is the identity. -/
theorem projectRow_tags (keep : List String) (r : Feature) (hnk : "name:en" ∉ keep) :
    projectRow keep r = { r with tags := r.tags.filter fun kv => decide (kv.1 ∈ keep) } := by
  unfold projectRow
  have hmap : ∀ kv ∈ r.tags.filter (fun kv => decide (kv.1 ∈ keep)),
      (renameCol kv.1, kv.2) = kv := by
    intro kv hkv
    have hin : kv.1 ∈ keep := by
      have := (List.mem_filter.mp hkv).2
      simpa using this
    have : renameCol kv.1 = kv.1 := by
      unfold renameCol
      rw [if_neg]
      intro hc
      rw [hc] at hin
      exact hnk hin
    rw [this]
  rw [List.map_congr_left hmap, List.map_id']

/-- Projection to a `"name:en"`-free kept-key set is idempotent. -/
theorem projectRow_idem (keep : List String) (r : Feature) (hnk : "name:en" ∉ keep) :
    projectRow keep (projectRow keep r) = projectRow keep r := by
  simp only [projectRow_tags _ _ hnk]
  simp [List.filter_filter]

/-- `dedupGo` is the identity on a list whose keys are already distinct and
unseen. -/
theorem dedupGo_eq_self (seen : List (Int × String)) (l : List Feature)
    (hnd : (l.map keyOf).Nodup) (hseen : ∀ r ∈ l, keyOf r ∉ seen) :
    dedupGo seen l = l := by
  induction l generalizing seen with
  | nil => rfl
  | cons x xs ih =>
    unfold dedupGo
    rw [if_neg (hseen x (List.mem_cons_self _ _))]
    simp only [List.map_cons, List.nodup_cons] at hnd
    rw [ih _ hnd.2]
    intro r hr
    intro hc
    rcases List.mem_cons.mp hc with h2 | h2
    · exact hnd.1 (h2 ▸ List.mem_map_of_mem keyOf hr)
    · exact hseen r (List.mem_cons_of_mem _ hr) h2

/-- The mask is stable under projection to a `"name:en"`-free kept-key set
containing the mask's columns. -/
theorem keepRow_projectRow (keep : List String) (b b2 : Bool) (d : Feature)
    (hnk : "name:en" ∉ keep) (hpk : "plant:source" ∈ keep)
    (hb : b2 = b) (hbs : b = true → "substation" ∈ keep) :
    keepRow b2 (projectRow keep d) = keepRow b d := by
  subst hb
  rw [projectRow_tags _ _ hnk]
  unfold keepRow
  dsimp only
  rw [tagLookup_filter_mem _ _ _ hpk]
  cases b2 with
  | false => simp
  | true => rw [tagLookup_filter_mem _ _ _ (hbs rfl)]

/-- **C5 (amended).** `filter_power_stations` is idempotent on every input
without a `"name:en"` column: a second application returns the first
application's output unchanged. -/
theorem filter_idempotent_without_name_en (gdf out : GeoDF)
    (hne : "name:en" ∉ gdf.tagCols)
    (h : filter_power_stations gdf = .ok out) :
    filter_power_stations out = .ok out := by
  have hps : "plant:source" ∈ gdf.tagCols := by
    by_contra hn
    unfold filter_power_stations at h
    rw [if_neg hn] at h
    cases h
  unfold filter_power_stations at h
  rw [if_pos hps] at h
  obtain rfl := Except.ok.inj h
  show filter_power_stations
      ⟨(colsToKeep.filter fun c => c ∈ gdf.tagCols).map renameCol,
       (dedupGo [] (gdf.rows.filter
          (keepRow (decide ("substation" ∈ gdf.tagCols))))).map
         (projectRow (colsToKeep.filter fun c => c ∈ gdf.tagCols))⟩ =
    .ok ⟨(colsToKeep.filter fun c => c ∈ gdf.tagCols).map renameCol,
       (dedupGo [] (gdf.rows.filter
          (keepRow (decide ("substation" ∈ gdf.tagCols))))).map
         (projectRow (colsToKeep.filter fun c => c ∈ gdf.tagCols))⟩
  have hkT : ∀ c ∈ colsToKeep.filter (fun c => c ∈ gdf.tagCols), c ∈ gdf.tagCols := by
    intro c hc
    have := (List.mem_filter.mp hc).2
    simpa using this
  have hnkT : "name:en" ∉ colsToKeep.filter (fun c => c ∈ gdf.tagCols) := by
    intro hc
    exact hne (hkT _ hc)
  have hrenT : (colsToKeep.filter fun c => c ∈ gdf.tagCols).map renameCol =
      colsToKeep.filter fun c => c ∈ gdf.tagCols := by
    have : ∀ c ∈ colsToKeep.filter (fun c => c ∈ gdf.tagCols), renameCol c = c := by
      intro c hc
      unfold renameCol
      rw [if_neg]
      intro hcc
      rw [hcc] at hc
      exact hnkT hc
    rw [List.map_congr_left this, List.map_id']
  rw [hrenT]
  have hpsT : "plant:source" ∈ colsToKeep.filter (fun c => c ∈ gdf.tagCols) :=
    List.mem_filter.mpr ⟨by decide, by simpa using hps⟩
  have hsubT : ("substation" ∈ colsToKeep.filter (fun c => c ∈ gdf.tagCols)) ↔
      ("substation" ∈ gdf.tagCols) := by
    constructor
    · exact fun hc => hkT _ hc
    · intro hc
      exact List.mem_filter.mpr ⟨by decide, by simpa using hc⟩
  have hkT2 : colsToKeep.filter
      (fun c => c ∈ colsToKeep.filter fun c => c ∈ gdf.tagCols) =
      colsToKeep.filter fun c => c ∈ gdf.tagCols := by
    apply List.filter_congr
    intro c hc
    apply decide_eq_decide.mpr
    constructor
    · intro h2
      have := (List.mem_filter.mp h2).2
      simpa using this
    · intro h2
      exact List.mem_filter.mpr ⟨hc, by simpa using h2⟩
  have hrows : ∀ r ∈ (dedupGo [] (gdf.rows.filter
        (keepRow (decide ("substation" ∈ gdf.tagCols))))).map
        (projectRow (colsToKeep.filter fun c => c ∈ gdf.tagCols)),
      keepRow (decide ("substation" ∈ colsToKeep.filter fun c => c ∈ gdf.tagCols)) r = true := by
    intro r hr
    obtain ⟨d, hd, rfl⟩ := List.mem_map.mp hr
    have hdk := mem_of_mem_dedupGo _ _ _ hd
    have hkeep := (List.mem_filter.mp hdk).2
    rw [keepRow_projectRow _ (decide ("substation" ∈ gdf.tagCols)) _ _ hnkT hpsT
      (decide_eq_decide.mpr hsubT) (fun hb => hsubT.mpr (of_decide_eq_true hb))]
    exact hkeep
  have hnodup : (((dedupGo [] (gdf.rows.filter
        (keepRow (decide ("substation" ∈ gdf.tagCols))))).map
        (projectRow (colsToKeep.filter fun c => c ∈ gdf.tagCols))).map keyOf).Nodup := by
    rw [List.map_map]
    exact dedupGo_keys_nodup [] _
  unfold filter_power_stations
  rw [if_pos hpsT]
  rw [Except.ok.injEq]
  show (⟨_, _⟩ : GeoDF) = _
  rw [GeoDF.mk.injEq]
  constructor
  · rw [hkT2, hrenT]
  · rw [hkT2]
    rw [List.filter_eq_self.mpr hrows]
    rw [dedupGo_eq_self [] _ hnodup (by simp)]
    rw [List.map_map]
    apply List.map_congr_left
    intro d hd
    exact projectRow_idem _ _ hnkT

end FacilityFilter

section SpatialJoins

variable {σ ρ τ : Type}

/-- Every row a left row contributes carries that row's index and geometry. -/
theorem sjoinRows_idx (pred : σ → ρ → Bool) (right : List (String × ρ)) (s : Nat × σ) :
    ∀ t ∈ sjoinRows pred right s, t.1 = s.1 ∧ t.2.1 = s.2 := by
  intro t ht
  unfold sjoinRows at ht
  split at ht
  · rcases List.mem_singleton.mp ht with rfl
    exact ⟨rfl, rfl⟩
  · obtain ⟨r, _, rfl⟩ := List.mem_map.mp ht
    exact ⟨rfl, rfl⟩

/-- A left join contributes at least one row per left row. -/
theorem sjoinRows_ne_nil (pred : σ → ρ → Bool) (right : List (String × ρ)) (s : Nat × σ) :
    sjoinRows pred right s ≠ [] := by
  unfold sjoinRows
  cases hf : right.filter (fun r => pred s.2 r.2) with
  | nil => simp
  | cons a t => simp

/-- Filtering a flat-mapped row list by one left index recovers exactly that
left row's contribution, provided left indices are distinct. -/
theorem filter_flatMap_idx (f : Nat × σ → List τ) (idx : τ → Nat) (left : List (Nat × σ))
    (hf : ∀ s ∈ left, ∀ t ∈ f s, idx t = s.1)
    (hnd : (left.map Prod.fst).Nodup) (s : Nat × σ) (hs : s ∈ left) :
    (left.flatMap f).filter (fun t => decide (idx t = s.1)) = f s := by
  induction left with
  | nil => cases hs
  | cons x xs ih =>
    rw [List.flatMap_cons, List.filter_append]
    simp only [List.map_cons, List.nodup_cons] at hnd
    rcases List.mem_cons.mp hs with rfl | hs2
    · have h1 : (f s).filter (fun t => decide (idx t = s.1)) = f s :=
        List.filter_eq_self.mpr fun t ht =>
          decide_eq_true (hf s (List.mem_cons_self _ _) t ht)
      have h2 : (xs.flatMap f).filter (fun t => decide (idx t = s.1)) = [] := by
        apply List.filter_eq_nil_iff.mpr
        intro t ht
        obtain ⟨s2, hs2, ht2⟩ := List.mem_flatMap.mp ht
        have hidx : idx t = s2.1 := hf s2 (List.mem_cons_of_mem _ hs2) t ht2
        simp only [decide_eq_true_eq]
        rw [hidx]
        intro hc
        exact hnd.1 (hc ▸ List.mem_map_of_mem Prod.fst hs2)
      rw [h1, h2, List.append_nil]
    · have hne : ¬ x.1 = s.1 := by
        intro hc
        exact hnd.1 (hc ▸ List.mem_map_of_mem Prod.fst hs2)
      have h1 : (f x).filter (fun t => decide (idx t = s.1)) = [] := by
        apply List.filter_eq_nil_iff.mpr
        intro t ht
        have hidx : idx t = x.1 := hf x (List.mem_cons_self _ _) t ht
        simp only [decide_eq_true_eq]
        rw [hidx]
        exact hne
      have h2 := ih (fun s2 hs2 => hf s2 (List.mem_cons_of_mem _ hs2)) hnd.2 hs2
      rw [h1, h2, List.nil_append]

/-- The unmatched rows of a left join are exactly the null rows of the left
rows with no match. -/
theorem sjoin_unmatched (pred : σ → ρ → Bool) (left : List (Nat × σ))
    (right : List (String × ρ)) :
    (sjoinLeft pred left right).filter (fun r => r.2.2.isNone) =
      (left.filter fun s => (right.filter fun r => pred s.2 r.2).isEmpty).map
        (fun s => (s.1, s.2, none)) := by
  induction left with
  | nil => rfl
  | cons x xs ih =>
    unfold sjoinLeft
    rw [List.flatMap_cons, List.filter_append]
    unfold sjoinLeft at ih
    rw [ih, List.filter_cons]
    by_cases hx : (right.filter fun r => pred x.2 r.2) = []
    · have hsr : sjoinRows pred right x = [(x.1, x.2, none)] := by
        unfold sjoinRows
        rw [hx]
      rw [hsr]
      rw [if_pos (by simp [hx])]
      rfl
    · have hsr : (sjoinRows pred right x).filter (fun r => r.2.2.isNone) = [] := by
        unfold sjoinRows
        split
        · rename_i heq
          exact absurd heq hx
        · apply List.filter_eq_nil_iff.mpr
          intro t ht
          obtain ⟨r, _, rfl⟩ := List.mem_map.mp ht
          simp
      rw [hsr]
      rw [if_neg (by simp [hx])]
      rfl

/-- Association-list lookup over an index-keyed map of a function. -/
theorem lookupNat_map {β : Type} (g : Nat → β) (l : List Nat) (j : Nat) :
    lookupNat (l.map fun i => (i, g i)) j = if j ∈ l then some (g j) else none := by
  induction l with
  | nil => simp [lookupNat]
  | cons a t ih =>
    rw [List.map_cons]
    unfold lookupNat
    by_cases ha : a = j
    · subst ha
      rw [if_pos rfl, if_pos (List.mem_cons_self _ _)]
    · rw [if_neg ha, ih]
      by_cases hj : j ∈ t
      · rw [if_pos hj, if_pos (List.mem_cons_of_mem _ hj)]
      · rw [if_neg hj, if_neg]
        intro hc
        rcases List.mem_cons.mp hc with h2 | h2
        · exact ha h2.symm
        · exact hj h2

/-- Membership in the first-seen dedup of a list of indices. -/
theorem mem_firstSeenGo (seen l : List Nat) (i : Nat) :
    i ∈ firstSeenGo seen l ↔ i ∈ l ∧ i ∉ seen := by
  induction l generalizing seen with
  | nil => simp [firstSeenGo]
  | cons a t ih =>
    unfold firstSeenGo
    by_cases ha : a ∈ seen
    · rw [if_pos ha, ih]
      simp only [List.mem_cons]
      constructor
      · rintro ⟨h1, h2⟩
        exact ⟨Or.inr h1, h2⟩
      · rintro ⟨h1, h2⟩
        refine ⟨h1.resolve_left ?_, h2⟩
        intro he
        exact h2 (he ▸ ha)
    · rw [if_neg ha]
      simp only [List.mem_cons, ih]
      constructor
      · rintro (rfl | ⟨h1, h2⟩)
        · exact ⟨Or.inl rfl, ha⟩
        · exact ⟨Or.inr h1, fun hc => h2 (Or.inr hc)⟩
      · rintro ⟨h1, h2⟩
        by_cases hia : i = a
        · exact Or.inl hia
        · exact Or.inr ⟨h1.resolve_left hia, fun hc => hc.elim hia h2⟩

/-- Lookup over a first-seen-keyed map of a function: defined exactly on the
indices occurring in the list. -/
theorem lookupNat_firstSeen_map {β : Type} (G : Nat → β) (l : List Nat) (j : Nat) :
    lookupNat ((firstSeenGo [] l).map fun i => (i, G i)) j =
      if j ∈ l then some (G j) else none := by
  rw [lookupNat_map]
  by_cases h : j ∈ l
  · rw [if_pos ((mem_firstSeenGo _ _ _).mpr ⟨h, by simp⟩), if_pos h]
  · rw [if_neg (fun hc => h ((mem_firstSeenGo _ _ _).mp hc).1), if_neg h]

/-- The rows the two-pass assignment produces for one station: its
within-matches when any exist, else one row labelled with the first
intersecting region (null when none intersects). -/
def stationRegionRows (wthn itsct : σ → ρ → Bool) (regions : List (String × ρ))
    (s : Nat × σ) : List (Nat × σ × Option String) :=
  match regions.filter (fun r => wthn s.2 r.2) with
  | [] => [(s.1, s.2, ((regions.filter fun r => itsct s.2 r.2).head?).map Prod.fst)]
  | ms => ms.map fun r => (s.1, s.2, some r.1)

/-- The first region value among one station's join rows is the name of its
first matching region. -/
theorem firstSome_sjoinRows (pred : σ → ρ → Bool) (right : List (String × ρ)) (s : Nat × σ) :
    firstSome ((sjoinRows pred right s).map fun r => r.2.2) =
      ((right.filter fun r => pred s.2 r.2).head?).map Prod.fst := by
  unfold sjoinRows
  cases hf : right.filter (fun r => pred s.2 r.2) with
  | nil => rfl
  | cons a t => rfl

/-- The write-back preserves the row index. -/
theorem assignApply_fst (firsts : List (Nat × Option String)) (r : Nat × σ × Option String) :
    (assignApply firsts r).1 = r.1 := by
  unfold assignApply
  cases lookupNat firsts r.1 with
  | none => rfl
  | some v => rfl

/-- Second-pass lookup at the index of an unmatched row: the first
intersecting region of that row's geometry. -/
theorem lookupNat_assignPass2_mem (itsct : σ → ρ → Bool) (regions : List (String × ρ))
    (um : List (Nat × σ × Option String)) (r : Nat × σ × Option String)
    (hnd : (um.map fun t => t.1).Nodup) (hr : r ∈ um) :
    lookupNat (assignPass2 itsct regions um) r.1 =
      some (((regions.filter fun rg => itsct r.2.1 rg.2).head?).map Prod.fst) := by
  unfold assignPass2 groupFirst
  rw [lookupNat_firstSeen_map]
  have hsmem : (r.1, r.2.1) ∈ um.map fun t => (t.1, t.2.1) :=
    List.mem_map_of_mem _ hr
  have hndus : ((um.map fun t => (t.1, t.2.1)).map Prod.fst).Nodup := by
    rw [List.map_map]
    exact hnd
  have hfilter :
      ((sjoinLeft itsct (um.map fun t => (t.1, t.2.1)) regions).filter
        (fun t => decide (t.1 = r.1))) =
        sjoinRows itsct regions (r.1, r.2.1) := by
    unfold sjoinLeft
    exact filter_flatMap_idx (sjoinRows itsct regions) (fun t => t.1) _
      (fun s2 hs2 t ht => (sjoinRows_idx _ _ _ t ht).1) hndus (r.1, r.2.1) hsmem
  have hin : r.1 ∈ (sjoinLeft itsct (um.map fun t => (t.1, t.2.1)) regions).map
      (fun t => t.1) := by
    obtain ⟨t, ht⟩ := List.exists_mem_of_ne_nil _
      (sjoinRows_ne_nil itsct regions (r.1, r.2.1))
    apply List.mem_map.mpr
    refine ⟨t, ?_, (sjoinRows_idx _ _ _ t ht).1⟩
    unfold sjoinLeft
    exact List.mem_flatMap.mpr ⟨(r.1, r.2.1), hsmem, ht⟩
  rw [if_pos hin, hfilter, firstSome_sjoinRows]

/-- Second-pass lookup at an index that occurs in no unmatched row is null. -/
theorem lookupNat_assignPass2_not_mem (itsct : σ → ρ → Bool) (regions : List (String × ρ))
    (um : List (Nat × σ × Option String)) (j : Nat)
    (hj : ∀ r ∈ um, r.1 ≠ j) :
    lookupNat (assignPass2 itsct regions um) j = none := by
  unfold assignPass2 groupFirst
  rw [lookupNat_firstSeen_map]
  rw [if_neg]
  intro hc
  obtain ⟨t, ht, hti⟩ := List.mem_map.mp hc
  obtain ⟨s2, hs2, ht2⟩ := List.mem_flatMap.mp ht
  obtain ⟨r, hr, rfl⟩ := List.mem_map.mp hs2
  have := (sjoinRows_idx _ _ _ t ht2).1
  exact hj r hr (by rw [← this, hti])

/-- Characterization of the two-pass assignment: with distinct station
indices, the output rows carrying one station's index are exactly its
within-matches, or a single fallback row labelled with its first
intersecting region. -/
theorem assignOblasts_char (wthn itsct : σ → ρ → Bool) (stations : List (Nat × σ))
    (regions : List (String × ρ)) (hnd : (stations.map Prod.fst).Nodup)
    (s : Nat × σ) (hs : s ∈ stations) :
    (assignOblasts wthn itsct stations regions).filter (fun r => decide (r.1 = s.1)) =
      stationRegionRows wthn itsct regions s := by
  have hUM := sjoin_unmatched wthn stations regions
  unfold assignOblasts
  cases hun : (sjoinLeft wthn stations regions).filter (fun r => r.2.2.isNone) with
  | nil =>
    rw [hun] at hUM
    have hem : stations.filter
        (fun st => (regions.filter fun r => wthn st.2 r.2).isEmpty) = [] :=
      List.map_eq_nil_iff.mp hUM.symm
    have hms : regions.filter (fun r => wthn s.2 r.2) ≠ [] := by
      intro hc
      have hmem : s ∈ stations.filter
          (fun st => (regions.filter fun r => wthn st.2 r.2).isEmpty) :=
        List.mem_filter.mpr ⟨hs, by rw [hc]; rfl⟩
      rw [hem] at hmem
      cases hmem
    show (sjoinLeft wthn stations regions).filter (fun r => decide (r.1 = s.1)) = _
    unfold sjoinLeft
    rw [filter_flatMap_idx (sjoinRows wthn regions) (fun t => t.1) stations
      (fun s2 hs2 t ht => (sjoinRows_idx _ _ _ t ht).1) hnd s hs]
    unfold sjoinRows stationRegionRows
    cases hf : regions.filter (fun r => wthn s.2 r.2) with
    | nil => exact absurd hf hms
    | cons a t => rfl
  | cons u us =>
    have hUMeq : u :: us = (stations.filter
        (fun st => (regions.filter fun r => wthn st.2 r.2).isEmpty)).map
        (fun st => (st.1, st.2, none)) := by
      rw [← hun, hUM]
    have hndum : ((u :: us).map fun t => t.1).Nodup := by
      rw [hUMeq, List.map_map]
      have hsub : ((stations.filter
          (fun st => (regions.filter fun r => wthn st.2 r.2).isEmpty)).map
          Prod.fst).Sublist (stations.map Prod.fst) :=
        (List.filter_sublist _).map _
      exact hnd.sublist hsub
    show ((sjoinLeft wthn stations regions).map
        (assignApply (assignPass2 itsct regions (u :: us)))).filter
        (fun r => decide (r.1 = s.1)) = _
    rw [List.filter_map]
    have hcong : (sjoinLeft wthn stations regions).filter
        ((fun r => decide (r.1 = s.1)) ∘ assignApply (assignPass2 itsct regions (u :: us))) =
        (sjoinLeft wthn stations regions).filter (fun r => decide (r.1 = s.1)) := by
      apply List.filter_congr
      intro t ht
      show decide ((assignApply _ t).1 = s.1) = decide (t.1 = s.1)
      rw [assignApply_fst]
    rw [hcong]
    unfold sjoinLeft
    rw [filter_flatMap_idx (sjoinRows wthn regions) (fun t => t.1) stations
      (fun s2 hs2 t ht => (sjoinRows_idx _ _ _ t ht).1) hnd s hs]
    unfold sjoinRows stationRegionRows
    cases hf : regions.filter (fun r => wthn s.2 r.2) with
    | nil =>
      have hsum : (s.1, s.2, (none : Option String)) ∈ u :: us := by
        rw [hUMeq]
        apply List.mem_map_of_mem
        exact List.mem_filter.mpr ⟨hs, by rw [hf]; rfl⟩
      have hlook := lookupNat_assignPass2_mem itsct regions (u :: us)
        (s.1, s.2, none) hndum hsum
      rw [List.map_cons, List.map_nil]
      unfold assignApply
      rw [hlook]
    | cons a t =>
      have hnum : ∀ r ∈ u :: us, r.1 ≠ s.1 := by
        intro r hr hc
        rw [hUMeq] at hr
        obtain ⟨st, hst, rfl⟩ := List.mem_map.mp hr
        have hstm := (List.mem_filter.mp hst).1
        have hemp := (List.mem_filter.mp hst).2
        have heq : st = s := List.inj_on_of_nodup_map hnd hstm hs hc
        rw [heq] at hemp
        rw [hf] at hemp
        cases hemp
      have hlook := lookupNat_assignPass2_not_mem itsct regions (u :: us) s.1 hnum
      show List.map (assignApply (assignPass2 itsct regions (u :: us)))
          (List.map (fun r => (s.1, s.2, some r.1)) (a :: t)) =
        List.map (fun r => (s.1, s.2, some r.1)) (a :: t)
      rw [List.map_map]
      apply List.map_congr_left
      intro r hr
      show assignApply (assignPass2 itsct regions (u :: us)) (s.1, s.2, some r.1) = _
      unfold assignApply
      dsimp only
      rw [hlook]

/-- **C6.** Region assignment is two-pass: a facility strictly contained in
a region is labelled in pass 1; a facility unmatched in pass 1 is re-tested
with the relaxed `intersects` predicate and labelled with its first
intersecting region; hence every facility intersecting at least one region
carries a non-null label after pass 2, and a facility intersecting no region
keeps a null label. -/
theorem region_assignment_two_pass (wthn itsct : σ → ρ → Bool)
    (stations : List (Nat × σ)) (regions : List (String × ρ))
    (hnd : (stations.map Prod.fst).Nodup)
    (hwi : ∀ g r, wthn g r = true → itsct g r = true)
    (s : Nat × σ) (hs : s ∈ stations) :
    (∀ row ∈ assignOblasts wthn itsct stations regions, row.1 = s.1 →
       (∃ r ∈ regions, itsct s.2 r.2 = true) → row.2.2.isSome) ∧
    (∀ row ∈ assignOblasts wthn itsct stations regions, row.1 = s.1 →
       (∀ r ∈ regions, itsct s.2 r.2 = false) → row.2.2 = none) ∧
    (∀ row ∈ assignOblasts wthn itsct stations regions, row.1 = s.1 →
       (∀ r ∈ regions, wthn s.2 r.2 = false) →
       row.2.2 = ((regions.filter fun r => itsct s.2 r.2).head?).map Prod.fst) := by
  have hchar := assignOblasts_char wthn itsct stations regions hnd s hs
  have hrow : ∀ row ∈ assignOblasts wthn itsct stations regions, row.1 = s.1 →
      row ∈ stationRegionRows wthn itsct regions s := by
    intro row hrw hidx
    rw [← hchar]
    exact List.mem_filter.mpr ⟨hrw, decide_eq_true hidx⟩
  refine ⟨?_, ?_, ?_⟩
  · intro row hrw hidx hex
    have hm := hrow row hrw hidx
    unfold stationRegionRows at hm
    cases hfw : regions.filter (fun r => wthn s.2 r.2) with
    | nil =>
      rw [hfw] at hm
      simp only [List.mem_singleton] at hm
      obtain ⟨r0, hr0, hir⟩ := hex
      have hne : regions.filter (fun r => itsct s.2 r.2) ≠ [] :=
        List.ne_nil_of_mem (List.mem_filter.mpr ⟨hr0, hir⟩)
      rw [hm]
      cases hh : regions.filter (fun r => itsct s.2 r.2) with
      | nil => exact absurd hh hne
      | cons a2 t2 => rfl
    | cons a t =>
      rw [hfw] at hm
      obtain ⟨r0, hr0, rfl⟩ := List.mem_map.mp hm
      rfl
  · intro row hrw hidx hall
    have hm := hrow row hrw hidx
    unfold stationRegionRows at hm
    have hfw : regions.filter (fun r => wthn s.2 r.2) = [] := by
      apply List.filter_eq_nil_iff.mpr
      intro r hr hc
      have := hwi s.2 r.2 hc
      rw [hall r hr] at this
      cases this
    rw [hfw] at hm
    simp only [List.mem_singleton] at hm
    have hfi : regions.filter (fun r => itsct s.2 r.2) = [] := by
      apply List.filter_eq_nil_iff.mpr
      intro r hr hc
      rw [hall r hr] at hc
      cases hc
    rw [hm, hfi]
    rfl
  · intro row hrw hidx hallw
    have hm := hrow row hrw hidx
    unfold stationRegionRows at hm
    have hfw : regions.filter (fun r => wthn s.2 r.2) = [] := by
      apply List.filter_eq_nil_iff.mpr
      intro r hr hc
      rw [hallw r hr] at hc
      cases hc
    rw [hfw] at hm
    simp only [List.mem_singleton] at hm
    rw [hm]

/-- Every join row a facility contributes carries the facility's index. -/
theorem gppdRows_idx (buffer : σ → Nat → σ) (itsct : σ → ρ → Bool) (radius : Nat)
    (refsUA : List ρ) (f : Nat × σ) :
    ∀ t ∈ gppdRows buffer itsct radius refsUA f, t.1 = f.1 := by
  intro t ht
  unfold gppdRows at ht
  split at ht
  · rcases List.mem_singleton.mp ht with rfl
    rfl
  · obtain ⟨r, _, rfl⟩ := List.mem_map.mp ht
    rfl

/-- A facility always contributes at least one join row. -/
theorem gppdRows_ne_nil (buffer : σ → Nat → σ) (itsct : σ → ρ → Bool) (radius : Nat)
    (refsUA : List ρ) (f : Nat × σ) :
    gppdRows buffer itsct radius refsUA f ≠ [] := by
  unfold gppdRows
  cases hf : refsUA.filter (fun p => itsct (buffer f.2 radius) p) with
  | nil => simp
  | cons a t => simp

/-- The any-match value of a facility's join rows is the any-intersection
over the filtered reference points. -/
theorem any_gppdRows (buffer : σ → Nat → σ) (itsct : σ → ρ → Bool) (radius : Nat)
    (refsUA : List ρ) (f : Nat × σ) :
    (gppdRows buffer itsct radius refsUA f).any (fun r => r.2) =
      refsUA.any fun p => itsct (buffer f.2 radius) p := by
  unfold gppdRows
  cases hf : refsUA.filter (fun p => itsct (buffer f.2 radius) p) with
  | nil =>
    have hfalse : (refsUA.any fun p => itsct (buffer f.2 radius) p) = false := by
      rw [Bool.eq_false_iff]
      intro hc
      obtain ⟨p, hp, hpi⟩ := List.any_eq_true.mp hc
      have : p ∈ refsUA.filter (fun p => itsct (buffer f.2 radius) p) :=
        List.mem_filter.mpr ⟨hp, hpi⟩
      rw [hf] at this
      cases this
    rw [hfalse]
    rfl
  | cons a t =>
    have htrue : (refsUA.any fun p => itsct (buffer f.2 radius) p) = true := by
      have ha : a ∈ refsUA.filter (fun p => itsct (buffer f.2 radius) p) := by
        rw [hf]
        exact List.mem_cons_self _ _
      have := List.mem_filter.mp ha
      exact List.any_eq_true.mpr ⟨a, this.1, this.2⟩
    rw [htrue]
    simp

/-- The grouped flag of a facility is its any-intersection value. -/
theorem lookupNat_gppdFlags_mem (buffer : σ → Nat → σ) (itsct : σ → ρ → Bool)
    (radius : Nat) (facilities : List (Nat × σ)) (refsUA : List ρ)
    (hnd : (facilities.map Prod.fst).Nodup) (f : Nat × σ) (hf : f ∈ facilities) :
    lookupNat (gppdFlags (facilities.flatMap (gppdRows buffer itsct radius refsUA))) f.1 =
      some (refsUA.any fun p => itsct (buffer f.2 radius) p) := by
  unfold gppdFlags
  rw [lookupNat_firstSeen_map]
  have hfilter : ((facilities.flatMap (gppdRows buffer itsct radius refsUA)).filter
      (fun t => decide (t.1 = f.1))) = gppdRows buffer itsct radius refsUA f :=
    filter_flatMap_idx (gppdRows buffer itsct radius refsUA) (fun t => t.1) _
      (fun s2 hs2 t ht => gppdRows_idx _ _ _ _ s2 t ht) hnd f hf
  have hin : f.1 ∈ (facilities.flatMap (gppdRows buffer itsct radius refsUA)).map
      (fun t => t.1) := by
    obtain ⟨t, ht⟩ := List.exists_mem_of_ne_nil _
      (gppdRows_ne_nil buffer itsct radius refsUA f)
    exact List.mem_map.mpr ⟨t, List.mem_flatMap.mpr ⟨f, hf, ht⟩,
      gppdRows_idx _ _ _ _ f t ht⟩
  rw [if_pos hin, hfilter, any_gppdRows]

/-- Per-row characterization of `match_with_gppd_r`: with distinct facility
indices, the output row at a facility's index carries that facility's
geometry and the boolean saying whether some filtered reference point
intersects its buffered geometry. -/
theorem gppd_row_char (buffer : σ → Nat → σ) (itsct : σ → ρ → Bool) (radius : Nat)
    (facilities : List (Nat × σ)) (refs : List (String × ρ))
    (hnd : (facilities.map Prod.fst).Nodup)
    (f : Nat × σ) (hf : f ∈ facilities) :
    ∀ row ∈ match_with_gppd_r buffer itsct radius facilities refs, row.1 = f.1 →
      row = (f.1, f.2,
        some (((refs.filter fun p => p.1 = "Ukraine").map Prod.snd).any
          fun p => itsct (buffer f.2 radius) p)) := by
  intro row hrw hidx
  unfold match_with_gppd_r at hrw
  obtain ⟨f2, hf2, rfl⟩ := List.mem_map.mp hrw
  obtain rfl : f2 = f := List.inj_on_of_nodup_map hnd hf2 hf hidx
  rw [lookupNat_gppdFlags_mem buffer itsct radius facilities _ hnd f2 hf2]

/-- **C7.** The reference matcher flags a facility true exactly when some
country-filtered reference point intersects its 500 m buffered geometry; no
facility is removed — the output carries every input facility, with the flag
present (false rather than absent on no match). -/
theorem gppd_match_flag (buffer : σ → Nat → σ) (itsct : σ → ρ → Bool)
    (facilities : List (Nat × σ)) (refs : List (String × ρ))
    (hnd : (facilities.map Prod.fst).Nodup) :
    ((match_with_gppd buffer itsct facilities refs).map fun row => (row.1, row.2.1)) =
      facilities ∧
    (∀ f ∈ facilities, ∀ row ∈ match_with_gppd buffer itsct facilities refs,
       row.1 = f.1 →
       row.2.2.isSome ∧
       (row.2.2 = some true ↔
         ∃ p ∈ refs, p.1 = "Ukraine" ∧ itsct (buffer f.2 500) p.2 = true)) := by
  constructor
  · unfold match_with_gppd match_with_gppd_r
    rw [List.map_map]
    exact List.map_id' facilities
  · intro f hf row hrw hidx
    have hchar := gppd_row_char buffer itsct 500 facilities refs hnd f hf row hrw hidx
    rw [hchar]
    constructor
    · rfl
    · constructor
      · intro hsome
        have hany := Option.some.inj hsome
        obtain ⟨p, hp, hpi⟩ := List.any_eq_true.mp hany
        obtain ⟨q, hq, rfl⟩ := List.mem_map.mp hp
        have hqf := List.mem_filter.mp hq
        exact ⟨q, hqf.1, of_decide_eq_true hqf.2, hpi⟩
      · rintro ⟨p, hp, hcountry, hpi⟩
        have hany : (((refs.filter fun pp => pp.1 = "Ukraine").map Prod.snd).any
            fun pp => itsct (buffer f.2 500) pp) = true :=
          List.any_eq_true.mpr ⟨p.2,
            List.mem_map_of_mem _ (List.mem_filter.mpr ⟨hp, decide_eq_true hcountry⟩), hpi⟩
        show some _ = some true
        rw [hany]

/-- **C8.** The reference-match flag is monotone in the buffer radius: with a
monotone buffering, a facility flagged true at 500 m is flagged true at any
radius of at least 500 m. -/
theorem gppd_flag_monotone (buffer : σ → Nat → σ) (itsct : σ → ρ → Bool)
    (facilities : List (Nat × σ)) (refs : List (String × ρ)) (R : Nat)
    (hnd : (facilities.map Prod.fst).Nodup)
    (hmono : ∀ (g : σ) (r1 r2 : Nat) (p : ρ), r1 ≤ r2 →
       itsct (buffer g r1) p = true → itsct (buffer g r2) p = true)
    (hR : 500 ≤ R) (f : Nat × σ) (hf : f ∈ facilities) :
    ∀ row1 ∈ match_with_gppd_r buffer itsct 500 facilities refs,
    ∀ row2 ∈ match_with_gppd_r buffer itsct R facilities refs,
      row1.1 = f.1 → row2.1 = f.1 → row1.2.2 = some true → row2.2.2 = some true := by
  intro row1 h1 row2 h2 hi1 hi2 htrue
  have hc1 := gppd_row_char buffer itsct 500 facilities refs hnd f hf row1 h1 hi1
  have hc2 := gppd_row_char buffer itsct R facilities refs hnd f hf row2 h2 hi2
  rw [hc1] at htrue
  rw [hc2]
  have hany := Option.some.inj htrue
  obtain ⟨p, hp, hpi⟩ := List.any_eq_true.mp hany
  have hany2 : (((refs.filter fun pp => pp.1 = "Ukraine").map Prod.snd).any
      fun pp => itsct (buffer f.2 R) pp) = true :=
    List.any_eq_true.mpr ⟨p, hp, hmono f.2 500 R p hR hpi⟩
  show some _ = some true
  rw [hany2]

end SpatialJoins

section WitnessMaterial

/-- A shapely model in which every constructed geometry is valid and
non-empty and the polygon constructor never raises; used to instantiate the
abstract predicates in concrete witnesses. -/
def shAll : ShapelyModel :=
  ⟨fun _ => true, fun _ => false, fun _ => true, fun _ => false, fun _ => true,
   fun _ => true, fun _ => false⟩

/-- A bare node element with coordinates. -/
def nodeEl (i lo la : Int) : Element := ⟨"node", i, some lo, some la, [], [], []⟩

/-- A bare way element with a node-reference list. -/
def wayEl (i : Int) (ns : List Int) : Element := ⟨"way", i, none, none, ns, [], []⟩

/-- Three nodes and a closed 4-point way. -/
def elsClosed : List Element :=
  [nodeEl 1 0 0, nodeEl 2 1 0, nodeEl 3 1 1, wayEl 10 [1, 2, 3, 1]]

/-- Three nodes and an open 3-point way. -/
def elsOpen : List Element :=
  [nodeEl 1 0 0, nodeEl 2 1 0, nodeEl 3 1 1, wayEl 10 [1, 2, 3]]

/-- A node and a way referencing it plus one id absent from the lookup:
exactly one node reference is resolvable. -/
def elsOneCoord : List Element := [nodeEl 1 0 0, wayEl 10 [1, 99]]

/-- A node element carrying no coordinates, referenced by a way. -/
def elsCoordless : List Element :=
  [⟨"node", 1, none, none, [], [], []⟩, wayEl 10 [1, 2]]

/-- Six nodes, two 3-point ways and a relation using both as outer rings. -/
def elsRelation : List Element :=
  [nodeEl 1 0 0, nodeEl 2 1 0, nodeEl 3 1 1,
   nodeEl 4 5 5, nodeEl 5 6 5, nodeEl 6 6 6,
   wayEl 10 [1, 2, 3], wayEl 11 [4, 5, 6],
   ⟨"relation", 20, none, none, [], [⟨"way", 10, some "outer"⟩, ⟨"way", 11, some ""⟩], []⟩]

/-- A fuel-tagged plant row with an English name and a stray column. -/
def rowA : Feature := ⟨1, "node", [("plant:source", "coal"), ("name:en", "A"), ("junk", "x")], .point 0 0⟩

/-- A duplicate-key fuel-tagged row. -/
def rowB : Feature := ⟨1, "node", [("plant:source", "gas")], .point 1 1⟩

/-- A transmission substation row. -/
def rowC : Feature := ⟨2, "way", [("substation", "transmission")], .point 2 2⟩

/-- A non-transmission substation row, to be filtered out. -/
def rowD : Feature := ⟨3, "way", [("substation", "distribution")], .point 3 3⟩

/-- Concrete filter input. -/
def gdfC4 : GeoDF := toGeoDF [rowA, rowB, rowC, rowD]

/-- The result of filtering `gdfC4`. -/
def outC4 : GeoDF :=
  ⟨["substation", "station_name_en", "plant:source"],
   [⟨1, "node", [("plant:source", "coal"), ("station_name_en", "A")], .point 0 0⟩,
    ⟨2, "way", [("substation", "transmission")], .point 2 2⟩]⟩

/-- A one-row collection carrying a `name:en` tag. -/
def gdfC5 : GeoDF :=
  toGeoDF [⟨1, "node", [("plant:source", "coal"), ("name:en", "A")], .point 0 0⟩]

/-- A collection without a `name:en` column. -/
def gdfC5b : GeoDF := toGeoDF [rowB, rowC]

/-- The result of filtering `gdfC5b`. -/
def outC5b : GeoDF :=
  ⟨["substation", "plant:source"],
   [⟨1, "node", [("plant:source", "gas")], .point 1 1⟩,
    ⟨2, "way", [("substation", "transmission")], .point 2 2⟩]⟩

/-- Concrete strict containment predicate over integer geometries. -/
def wthnW : Int → Int → Bool := fun g r => decide (g = r)

/-- Concrete relaxed intersection predicate over integer geometries. -/
def itsctW : Int → Int → Bool := fun g r => decide (g ≤ r)

/-- Concrete stations: one strictly inside A, one straddling B, one outside
everything. -/
def stW : List (Nat × Int) := [(0, 5), (1, 7), (2, 100)]

/-- Concrete regions. -/
def rgW : List (String × Int) := [("A", 5), ("B", 9), ("C", 22)]

/-- Concrete metric buffering over integer geometries. -/
def bufW : Int → Nat → Int := fun g r => g + (r : Int)

/-- Concrete buffered-intersection predicate. -/
def itsctG : Int → Int → Bool := fun b p => decide (p ≤ b)

/-- One concrete facility. -/
def facW : List (Nat × Int) := [(0, 10)]

/-- Concrete reference records, one in-country and one not. -/
def refW : List (String × Int) := [("Ukraine", 300), ("France", 0)]

/-- The concrete buffered intersection grows with the radius. -/
theorem itsctG_mono : ∀ (g : Int) (r1 r2 : Nat) (p : Int), r1 ≤ r2 →
    itsctG (bufW g r1) p = true → itsctG (bufW g r2) p = true := by
  intro g r1 r2 p h12 hp
  have hp2 : p ≤ g + (r1 : Int) := of_decide_eq_true hp
  apply decide_eq_true
  show p ≤ g + (r2 : Int)
  have h12b : (r1 : Int) ≤ (r2 : Int) := Int.ofNat_le.mpr h12
  omega

end WitnessMaterial

section Witnesses

/-- Witness for C1: the closed 4-point way builds exactly the polygon. -/
theorem way_closed_ring_builds_polygon_witness :
    resolveNodeCoords (nodeById elsClosed) (wayEl 10 [1, 2, 3, 1]).nodes =
      .ok [(0, 0), (1, 0), (1, 1), (0, 0)] ∧
    buildGeom shAll (nodeById elsClosed) (wayById elsClosed) (wayEl 10 [1, 2, 3, 1]) =
      .ok (some (.polygon [(0, 0), (1, 0), (1, 1), (0, 0)])) ∧
    featuresLoop shAll (nodeById elsClosed) (wayById elsClosed) [wayEl 10 [1, 2, 3, 1]] =
      .ok [mkFeature (wayEl 10 [1, 2, 3, 1]) (.polygon [(0, 0), (1, 0), (1, 1), (0, 0)])] := by
  have h := way_closed_ring_builds_polygon shAll (nodeById elsClosed) (wayById elsClosed)
    (wayEl 10 [1, 2, 3, 1]) [(0, 0), (1, 0), (1, 1), (0, 0)] rfl (by decide) (by decide) (by decide)
  exact ⟨by decide, by simpa using h.1, by simpa using h.2⟩

/-- Witness for C2 (amended): the open 3-point way builds exactly the line. -/
theorem way_nonclosed_line_cases_witness :
    resolveNodeCoords (nodeById elsOpen) (wayEl 10 [1, 2, 3]).nodes =
      .ok [(0, 0), (1, 0), (1, 1)] ∧
    buildGeom shAll (nodeById elsOpen) (wayById elsOpen) (wayEl 10 [1, 2, 3]) =
      .ok (some (.line [(0, 0), (1, 0), (1, 1)])) := by
  have h := way_nonclosed_line_cases shAll (nodeById elsOpen) (wayById elsOpen)
    (wayEl 10 [1, 2, 3]) [(0, 0), (1, 0), (1, 1)] rfl (by decide) (by decide)
  exact ⟨by decide, by simpa using (h.1 (by decide)).1⟩

/-- Counterexample for C2 as stated: a way with exactly one resolvable node
reference (fewer than 2) is not silently dropped — the batch aborts with an
error. -/
theorem way_single_resolvable_node_aborts :
    ((wayEl 10 [1, 99]).nodes.filter fun n => (nodeById elsOneCoord n).isSome).length = 1 ∧
    elements_to_geodataframe shAll elsOneCoord = .error () := by decide

/-- Witness for C3: the two-outer-ring relation builds the multipolygon of
both rings. -/
theorem relation_outer_rings_dispatch_witness :
    relRings shAll (nodeById elsRelation) (wayById elsRelation)
      (⟨"relation", 20, none, none, [], [⟨"way", 10, some "outer"⟩, ⟨"way", 11, some ""⟩],
        []⟩ : Element).members =
      .ok [[(0, 0), (1, 0), (1, 1)], [(5, 5), (6, 5), (6, 6)]] ∧
    buildGeom shAll (nodeById elsRelation) (wayById elsRelation)
      ⟨"relation", 20, none, none, [], [⟨"way", 10, some "outer"⟩, ⟨"way", 11, some ""⟩], []⟩ =
      .ok (some (.multipolygon [[(0, 0), (1, 0), (1, 1)], [(5, 5), (6, 5), (6, 6)]])) := by
  have h := relation_outer_rings_dispatch shAll (nodeById elsRelation) (wayById elsRelation)
    ⟨"relation", 20, none, none, [], [⟨"way", 10, some "outer"⟩, ⟨"way", 11, some ""⟩], []⟩
    [[(0, 0), (1, 0), (1, 1)], [(5, 5), (6, 5), (6, 6)]] rfl (by decide)
  exact ⟨by decide, h.2.2.1 (by decide)⟩

/-- Witness for C9: a coordinate-less node aborts the batch, while an id
absent from the lookup is skipped. -/
theorem coordless_node_reference_aborts_witness :
    nodeById elsCoordless 1 = some ⟨"node", 1, none, none, [], [], []⟩ ∧
    elements_to_geodataframe shAll elsCoordless = .error () ∧
    resolveNodeCoords (nodeById elsOpen) [1, 99] = .ok [(0, 0)] := by
  refine ⟨by decide, ?_, ?_⟩
  · exact (coordless_node_reference_aborts shAll).1 elsCoordless (wayEl 10 [1, 2]) 1
      ⟨"node", 1, none, none, [], [], []⟩ (by decide) rfl (by decide) (by decide) (Or.inl rfl)
  · have hok : ∀ n ∈ ([1, 99] : List Int), ∀ e, nodeById elsOpen n = some e →
        e.lon.isSome ∧ e.lat.isSome := by
      intro n hn e he
      have hn2 : n = 1 ∨ n = 99 := by simpa using hn
      rcases hn2 with rfl | rfl
      · have h1 : nodeById elsOpen 1 = some (nodeEl 1 0 0) := by decide
        rw [h1] at he
        obtain rfl := Option.some.inj he
        exact ⟨rfl, rfl⟩
      · have h2 : nodeById elsOpen 99 = none := by decide
        rw [h2] at he
        cases he
    have h := (coordless_node_reference_aborts shAll).2 (nodeById elsOpen) [1, 99] hok
    simpa using h

/-- Witness for C10: a substation-only collection raises, a fuel-source
collection returns normally. -/
theorem missing_fuel_column_raises_witness :
    filter_power_stations
      (toGeoDF [⟨2, "way", [("substation", "transmission")], .point 2 2⟩]) = .error () ∧
    ∃ out, filter_power_stations
      (toGeoDF [⟨1, "node", [("plant:source", "gas")], .point 1 1⟩]) = .ok out := by
  constructor
  · exact (missing_fuel_column_raises
      (toGeoDF [⟨2, "way", [("substation", "transmission")], .point 2 2⟩])
      [⟨2, "way", [("substation", "transmission")], .point 2 2⟩]).2.1 (by decide)
  · exact (missing_fuel_column_raises
      (toGeoDF [⟨1, "node", [("plant:source", "gas")], .point 1 1⟩]) []).2.2 (by decide)

/-- Witness for C4: on the concrete input the filter keeps the fuel-tagged
and transmission rows, deduplicated with distinct keys. -/
theorem filter_keeps_exactly_and_dedups_witness :
    filter_power_stations gdfC4 = .ok outC4 ∧
    (outC4.rows.map keyOf).Nodup ∧
    (∃ r ∈ outC4.rows, keyOf r = keyOf rowC) := by
  have h := filter_keeps_exactly_and_dedups gdfC4 outC4 (by decide) (by decide)
  exact ⟨by decide, h.2.2.1, h.2.1 rowC (by decide) (by decide)⟩

/-- Counterexample for C5 as stated: on an input carrying a `name:en`
column, applying the filter twice does not return the same frame as
applying it once — the second application drops the renamed
`station_name_en` column. -/
theorem filter_not_idempotent_with_name_en :
    (filter_power_stations gdfC5).bind filter_power_stations ≠
      filter_power_stations gdfC5 := by decide

/-- Witness for C5 (amended): on a `name:en`-free input the filter is
idempotent. -/
theorem filter_idempotent_without_name_en_witness :
    "name:en" ∉ gdfC5b.tagCols ∧
    filter_power_stations gdfC5b = .ok outC5b ∧
    filter_power_stations outC5b = .ok outC5b := by
  exact ⟨by decide, by decide,
    filter_idempotent_without_name_en gdfC5b outC5b (by decide) (by decide)⟩

/-- Witness for C6: the straddling station is assigned its first
intersecting region in pass 2, and the isolated station keeps a null
region. -/
theorem region_assignment_two_pass_witness :
    ((1, (7 : Int), (some "B" : Option String)) ∈ assignOblasts wthnW itsctW stW rgW) ∧
    ((1, (7 : Int), (some "B" : Option String)).2.2 =
      ((rgW.filter fun r => itsctW 7 r.2).head?).map Prod.fst) ∧
    ((2, (100 : Int), (none : Option String)) ∈ assignOblasts wthnW itsctW stW rgW) ∧
    ((2, (100 : Int), (none : Option String)).2.2 = none) := by
  have hwi : ∀ (g r : Int), wthnW g r = true → itsctW g r = true := fun g r h =>
    decide_eq_true (le_of_eq (of_decide_eq_true h))
  have h1 := region_assignment_two_pass wthnW itsctW stW rgW (by decide) hwi
    (1, 7) (by decide)
  have h2 := region_assignment_two_pass wthnW itsctW stW rgW (by decide) hwi
    (2, 100) (by decide)
  exact ⟨by decide, h1.2.2 _ (by decide) rfl (by decide), by decide,
    h2.2.1 _ (by decide) rfl (by decide)⟩

/-- Witness for C7: the single facility is kept, its flag is present, and
the true flag yields an intersecting in-country reference point. -/
theorem gppd_match_flag_witness :
    ((match_with_gppd bufW itsctG facW refW).map fun row => (row.1, row.2.1)) = facW ∧
    ((0, (10 : Int), (some true : Option Bool)) ∈ match_with_gppd bufW itsctG facW refW) ∧
    (∃ p ∈ refW, p.1 = "Ukraine" ∧ itsctG (bufW 10 500) p.2 = true) := by
  have h := gppd_match_flag bufW itsctG facW refW (by decide)
  refine ⟨h.1, by decide, ?_⟩
  exact ((h.2 (0, 10) (by decide) (0, 10, some true) (by decide) rfl).2).mp rfl

/-- Witness for C8: the facility flagged at 500 m keeps a true flag at
600 m. -/
theorem gppd_flag_monotone_witness :
    ((0, (10 : Int), (some true : Option Bool)) ∈
      match_with_gppd_r bufW itsctG 500 facW refW) ∧
    ((0, (10 : Int), (some true : Option Bool)) ∈
      match_with_gppd_r bufW itsctG 600 facW refW) ∧
    ((0, (10 : Int), (some true : Option Bool)).2.2 = some true) := by
  have h := gppd_flag_monotone bufW itsctG facW refW 600 (by decide) itsctG_mono
    (by decide) (0, 10) (by decide)
  exact ⟨by decide, by decide,
    h (0, 10, some true) (by decide) (0, 10, some true) (by decide) rfl rfl rfl⟩

end Witnesses

end UkrEnergy
